import Mathlib

/-!
Verification of the treasury analytics engine (`treasury_app.py`).

Shallow embedding of the analytics helpers of `src/treasury_app.py`:
`compute_kpis`, `balance_timeseries`, `monthly_flows`, `category_breakdown`,
plus the settings and CSV-import boundary behaviour used by `main`.

Modelling choices (each noted again at the relevant definition):
* A calendar date is represented by its proleptic-Gregorian ordinal
  (`Int`, as returned by Python's `date.toordinal()`); date comparison and
  `timedelta` arithmetic on valid dates are exactly ordinal comparison and
  ordinal arithmetic.  The calendar month of a date is recovered from the
  ordinal by the standard civil-from-days algorithm (`monthKey`), mirroring
  `pd.to_datetime(..).dt.to_period('M')`.
* Currency amounts (SQLite `REAL`) are modelled as exact rationals `Rat`;
  the claims under verification are about the algebraic structure of the
  computations, not about rounding of IEEE doubles.
* A snapshot (the `DataFrame` produced by `fetch_transactions_df`, ordered
  by `(t_date, id)` ascending) is a `List Txn` in store order; the list
  position carries the `(date, id)` order, so `id` itself is not needed by
  the analytics and is omitted from `Txn`.
* `category` is `Option String`: the SQLite column is nullable and a SQL
  `NULL` surfaces as a missing value (`None`/`NaN`) in the `DataFrame`,
  which pandas `groupby` then *drops*; `none` models exactly that missing
  value, `some ""` models the empty string (a perfectly good group key).
-/

/-- A transaction record as seen by the analytics helpers: the `t_date`
column as a proleptic-Gregorian ordinal, the `amount` column, and the
(nullable) `category` column.  `id`, `description`, `account`,
`created_at` are never read by the analytics. -/
structure Txn where
  date : Int
  amount : Rat
  category : Option String
deriving DecidableEq, Repr

/-- `df['amount'].sum()` — with pandas convention `sum([]) = 0`. -/
def sumAmounts (df : List Txn) : Rat :=
  (df.map Txn.amount).sum

/-- `min(df['t_date'])` on a non-empty frame (0 is a junk value for `[]`,
never used: every use site is guarded by non-emptiness). -/
def minDate : List Txn → Int
  | [] => 0
  | t :: ts => ts.foldl (fun a x => min a x.date) t.date

/-- `max(df['t_date'])` on a non-empty frame. -/
def maxDate : List Txn → Int
  | [] => 0
  | t :: ts => ts.foldl (fun a x => max a x.date) t.date

/-- Civil-from-days: convert a count of days since 1970-01-01 to
`(year, month, day)` in the proleptic Gregorian calendar (the calendar
Python's `datetime.date` uses).  Standard era-based algorithm. -/
def civilFromDays (z0 : Int) : Int × Int × Int :=
  let z := z0 + 719468
  let era := Int.fdiv z 146097
  let doe := z - era * 146097
  let yoe := Int.fdiv (doe - Int.fdiv doe 1460 + Int.fdiv doe 36524 - Int.fdiv doe 146096) 365
  let y := yoe + era * 400
  let doy := doe - (365 * yoe + Int.fdiv yoe 4 - Int.fdiv yoe 100)
  let mp := Int.fdiv (5 * doy + 2) 153
  let d := doy - Int.fdiv (153 * mp + 2) 5 + 1
  let m := if mp < 10 then mp + 3 else mp - 9
  (if m ≤ 2 then y + 1 else y, m, d)

/-- The calendar-month key `(year, month)` of a date given by its Python
ordinal (`date.toordinal()`; ordinal 719163 is 1970-01-01).  This is the
grouping key produced by `pd.to_datetime(tmp['t_date']).dt.to_period('M')`
in `monthly_flows`. -/
def monthKey (ord : Int) : Int × Int :=
  let c := civilFromDays (ord - 719163)
  (c.1, c.2.1)

/-- The KPI record returned by `compute_kpis` (treasury_app.py lines
117-152).  `runway_days = none` models the Python `None`. -/
structure KPIs where
  current_balance : Rat
  net_30d : Rat
  avg_daily_burn : Rat
  runway_days : Option Int
deriving DecidableEq, Repr

/-- The mask-and-select `df[df['t_date'] >= cutoff]` used twice in
`compute_kpis` (treasury_app.py lines 130 and 133-134). -/
def withDateFrom (df : List Txn) (cutoff : Int) : List Txn :=
  df.filter fun t => decide (cutoff ≤ t.date)

/-- `compute_kpis(df, initial_balance)` (treasury_app.py lines 117-152).
The two calls `date.today()` inside the Python body (lines 129 and 135)
are embedded as the explicit parameter `today` (one consistent value,
as a Python ordinal): the wall clock is the only non-parameter input.
`int(x)` on the non-negative runway quotient is `⌊x⌋`. -/
def compute_kpis (df : List Txn) (initial_balance : Rat) (today : Int) : KPIs :=
  if df = [] then
    { current_balance := initial_balance
      net_30d := 0
      avg_daily_burn := 0
      runway_days := none }
  else
    let current_balance := initial_balance + sumAmounts df
    let cutoff := today - 30
    let net_30d := sumAmounts (withDateFrom df cutoff)
    let pd :=
      if df.any (fun t => decide (cutoff ≤ t.date)) then
        let period_df := withDateFrom df cutoff
        (period_df, today - max (minDate period_df) cutoff + 1)
      else
        (df, max (maxDate df - minDate df + 1) 30)
    let avg_daily_burn := sumAmounts pd.1 / ((max pd.2 1 : Int) : Rat)
    let runway_days : Option Int :=
      if avg_daily_burn < 0 then
        some (if 0 < current_balance then ⌊current_balance / (-avg_daily_burn)⌋ else 0)
      else none
    { current_balance := current_balance
      net_30d := net_30d
      avg_daily_burn := avg_daily_burn
      runway_days := runway_days }

/-- The ordering used by `tmp.sort_values('t_date')`: compare records by
date alone.  (Within equal dates the pandas sort does not guarantee an
order; every result we prove about `balance_timeseries` is independent of
the within-date order, see `balance_timeseries`.) -/
def dateLe (a b : Txn) : Prop := a.date ≤ b.date

instance : DecidableRel dateLe := fun a b => Int.decLe a.date b.date

instance : IsTotal Txn dateLe := ⟨fun a b => le_total a.date b.date⟩

instance : IsTrans Txn dateLe := ⟨fun _ _ _ h h2 => le_trans h h2⟩

/-- `tmp = tmp.sort_values('t_date')` (treasury_app.py line 159). -/
def sortByDate (df : List Txn) : List Txn := List.insertionSort dateLe df

/-- `tmp['cum'] = tmp['amount'].cumsum() + initial_balance`
(treasury_app.py line 160): pair each record's date with the running
total so far plus the initial balance. -/
def cumWithInit (init : Rat) : List Txn → List (Int × Rat)
  | [] => []
  | t :: ts => (t.date, init + t.amount) :: cumWithInit (init + t.amount) ts

/-- `tmp.groupby('t_date', as_index=False)['cum'].last()` (treasury_app.py
line 161) applied to a date-sorted list: keep, for each run of equal
dates, the last entry of the run.  (The input being sorted by date, runs
of equal dates are contiguous, so run-collapsing is exactly the groupby;
`groupby(...).last()` keeps the group key and the last value per group.) -/
def lastPerDate : List (Int × Rat) → List (Int × Rat)
  | [] => []
  | [p] => [p]
  | p :: q :: rest =>
    if p.1 = q.1 then lastPerDate (q :: rest) else p :: lastPerDate (q :: rest)

/-- `balance_timeseries(df, initial_balance)` (treasury_app.py lines
155-163): sort by date, take cumulative sums offset by the initial
balance, and keep the last cumulative value per distinct date. -/
def balance_timeseries (df : List Txn) (initial_balance : Rat) : List (Int × Rat) :=
  if df = [] then []
  else lastPerDate (cumWithInit initial_balance (sortByDate df))

/-- Non-strict lexicographic order on `(year, month)` keys — the order in
which pandas aligns and sorts month group keys (their first-day
timestamps compare exactly lexicographically). -/
def mLe (a b : Int × Int) : Prop := toLex a ≤ toLex b

/-- Strict lexicographic order on `(year, month)` keys. -/
def mLt (a b : Int × Int) : Prop := toLex a < toLex b

instance : DecidableRel mLe :=
  fun a b => inferInstanceAs (Decidable (toLex a ≤ toLex b))

instance : DecidableRel mLt :=
  fun a b => inferInstanceAs (Decidable (toLex a < toLex b))

instance : IsTotal (Int × Int) mLe := ⟨fun a b => le_total (toLex a) (toLex b)⟩

instance : IsTrans (Int × Int) mLe := ⟨fun _ _ _ h h2 => le_trans h h2⟩

/-- The distinct month keys present in the snapshot, sorted ascending:
the index of `tmp.groupby('month')['amount'].sum()` in `monthly_flows`.
Every record contributes to `net`, so this index (the sorted union the
`DataFrame` constructor aligns on) is the full set of months present. -/
def monthsOf (df : List Txn) : List (Int × Int) :=
  List.insertionSort mLe (df.map fun t => monthKey t.date).dedup

/-- `monthly_flows(df)` (treasury_app.py lines 166-175).  One output row
per month present, sorted ascending by month; `inflow` sums the strictly
positive amounts of the month, `outflow` the strictly negative ones,
`net` all of them; a month with no positive (resp. negative) amounts gets
`0` there — that is `fillna(0)` after the `DataFrame` aligns the three
groupby results on the union of their indices. -/
def monthly_flows (df : List Txn) : List ((Int × Int) × Rat × Rat × Rat) :=
  if df = [] then []
  else
    (monthsOf df).map fun m =>
      (m,
       sumAmounts (df.filter fun t => decide (monthKey t.date = m) && decide (0 < t.amount)),
       sumAmounts (df.filter fun t => decide (monthKey t.date = m) && decide (t.amount < 0)),
       sumAmounts (df.filter fun t => decide (monthKey t.date = m)))

/-- Ordering of `(category, net)` pairs by net amount: the comparison of
`out.sort_values('amount')` in `category_breakdown`. -/
def amtLe (p q : String × Rat) : Prop := p.2 ≤ q.2

instance : DecidableRel amtLe := fun p q => inferInstanceAs (Decidable (p.2 ≤ q.2))

instance : IsTotal (String × Rat) amtLe := ⟨fun p q => le_total p.2 q.2⟩

instance : IsTrans (String × Rat) amtLe := ⟨fun _ _ _ h h2 => le_trans h h2⟩

/-- `category_breakdown(df)` (treasury_app.py lines 178-183).
`df.groupby('category')['amount'].sum()` produces one (key, sum) pair
per distinct non-null category — pandas `groupby` *drops* rows whose key
is missing (`None`/`NaN`, i.e. `t.category = none` here), while the empty
string is an ordinary key — and `sort_values('amount')` then orders the
pairs ascending by summed amount.  (The intermediate key-sorted groupby
order only affects which of several equal-sum categories comes first,
an order the unstable `sort_values` does not pin down anyway; we take
first-occurrence order as the tie order.) -/
def category_breakdown (df : List Txn) : List (String × Rat) :=
  if df = [] then []
  else
    List.insertionSort amtLe
      ((df.filterMap Txn.category).dedup.map fun c =>
        (c, sumAmounts (df.filter fun t => decide (t.category = some c))))

/-- One cell of a text column as the import loop sees it (treasury_app.py
lines 216-222): a present string, a blank cell — which `pd.read_csv`
reads as `NaN`, a value that is *truthy* in Python — or Python `None`,
the fill `imp[col] = None` applied when an optional column is absent
from the file.  Only `account` can actually be absent: `date`,
`description`, `category`, `amount` are required, or the import is
refused before the loop (line 212). -/
inductive Cell where
  | str (s : String)
  | nan
  | null
deriving DecidableEq, Repr

/-- One row of an accepted CSV after the pre-loop normalisation
(treasury_app.py lines 216-220): the date already parsed — a file with
an unparseable date cell raises at line 220 and aborts the whole import
before any insertion — the text cells as `Cell`, and the amount as
`float(r['amount'])` would parse it at insertion time, `none` when that
call would raise. -/
structure CsvRow where
  date : Int
  description : Cell
  category : Cell
  amount : Option Rat
  account : Cell
deriving DecidableEq, Repr

/-- The argument tuple stored by `insert_transaction` for one row, with
the text fields as the database stores them (`none` = SQL NULL). -/
structure NewTxn where
  date : Int
  description : Option String
  category : Option String
  amount : Rat
  account : Option String
deriving DecidableEq, Repr

/-- Python `x or default` applied to a text cell at line 222, giving the
value the database stores: `None` and the empty string are falsy and
replaced by the default, while a blank cell's `NaN` is truthy, so it is
passed through unchanged and `sqlite3` binds it as SQL NULL. -/
def pyOr (c : Cell) (d : String) : Option String :=
  match c with
  | Cell.str s => if s = "" then some d else some s
  | Cell.nan => none
  | Cell.null => some d

/-- The transaction created from one CSV row whose amount parsed to `a`
(treasury_app.py line 222): `insert_transaction(r['date'],
r['description'] or '', r['category'] or 'Autre', float(r['amount']),
r.get('account') or 'Cash')`. -/
def importRow (r : CsvRow) (a : Rat) : NewTxn :=
  { date := r.date
    description := pyOr r.description ""
    category := pyOr r.category "Autre"
    amount := a
    account := pyOr r.account "Cash" }

/-- The import loop (treasury_app.py lines 221-222): insert row by row,
in order.  The first row whose amount fails to parse raises inside the
loop and aborts the batch: rows before it remain inserted, the failing
row and every later row are not (the exception is caught at line 224
after the partial commit). -/
def csvImport : List CsvRow → List NewTxn
  | [] => []
  | r :: rs =>
    match r.amount with
    | none => []
    | some a => importRow r a :: csvImport rs

/-- A concrete one-record snapshot (2024-01-05, amount +5, category "a")
used as input in witness statements. -/
def sampleMF : List Txn := [⟨738890, 5, some "a"⟩]

/-- The single monthly-flow row produced from `sampleMF`, spelled with
its `(2024, 1)` month key. -/
def sampleMFe : (Int × Int) × Rat × Rat × Rat :=
  (((2024 : Int), (1 : Int)),
   sumAmounts (sampleMF.filter fun t =>
     decide (monthKey t.date = ((2024 : Int), (1 : Int))) && decide (0 < t.amount)),
   sumAmounts (sampleMF.filter fun t =>
     decide (monthKey t.date = ((2024 : Int), (1 : Int))) && decide (t.amount < 0)),
   sumAmounts (sampleMF.filter fun t =>
     decide (monthKey t.date = ((2024 : Int), (1 : Int)))))

/-- A concrete one-record snapshot used as input in witness statements. -/
def sampleCB : List Txn := [⟨9, 4, some "b"⟩]

/-- The single category row produced from `sampleCB`. -/
def sampleCBp : String × Rat :=
  ("b", sumAmounts (sampleCB.filter fun t => decide (t.category = some "b")))

/-! ## Helper lemmas -/

theorem sumAmounts_nil : sumAmounts [] = 0 := rfl

theorem sumAmounts_cons (t : Txn) (ts : List Txn) :
    sumAmounts (t :: ts) = t.amount + sumAmounts ts := by
  simp [sumAmounts]

theorem sumAmounts_perm {l l2 : List Txn} (h : l.Perm l2) : sumAmounts l = sumAmounts l2 :=
  List.Perm.sum_eq (List.Perm.map Txn.amount h)

/-- Splitting a sum of amounts along a Boolean predicate. -/
theorem sumAmounts_filter_add_not (p : Txn → Bool) (l : List Txn) :
    sumAmounts (l.filter p) + sumAmounts (l.filter fun t => !(p t)) = sumAmounts l := by
  induction l with
  | nil => simp [sumAmounts]
  | cons t ts ih =>
    cases hp : p t <;>
      simp [List.filter_cons, hp, sumAmounts_cons] <;>
      linarith [ih]

/-- In a list sorted by date, the head's date bounds every date below. -/
theorem pairwise_head_date_le {u : Txn} {us : List Txn}
    (h : List.Pairwise dateLe (u :: us)) :
    ∀ d ∈ (u :: us).map Txn.date, u.date ≤ d := by
  intro d hd
  rcases List.mem_map.mp hd with ⟨x, hx, rfl⟩
  rcases List.mem_cons.mp hx with rfl | hx2
  · exact le_refl _
  · exact (List.pairwise_cons.mp h).1 x hx2

/-- Core of the timeseries argument: on a date-sorted list, collapsing
the running sums to the last entry per date yields strictly increasing
dates, exactly the dates present, and at each retained date the running
sum equals the offset plus the sum of all amounts dated `≤` it. -/
theorem lastPerDate_cum_spec (s : List Txn) :
    ∀ init : Rat, List.Pairwise dateLe s →
    (List.Pairwise (· < ·) ((lastPerDate (cumWithInit init s)).map Prod.fst))
    ∧ (∀ d : Int,
        d ∈ (lastPerDate (cumWithInit init s)).map Prod.fst ↔ d ∈ s.map Txn.date)
    ∧ (∀ p ∈ lastPerDate (cumWithInit init s),
        p.2 = init + sumAmounts (s.filter fun t => decide (t.date ≤ p.1))) := by
  induction s with
  | nil =>
    intro init _
    refine ⟨by simp [cumWithInit, lastPerDate], by simp [cumWithInit, lastPerDate], ?_⟩
    intro p hp
    simp [cumWithInit, lastPerDate] at hp
  | cons t ts ih =>
    intro init hs
    have hhead : ∀ x ∈ ts, dateLe t x := (List.pairwise_cons.mp hs).1
    have hs2 : List.Pairwise dateLe ts := (List.pairwise_cons.mp hs).2
    cases ts with
    | nil =>
      refine ⟨by simp [cumWithInit, lastPerDate], by simp [cumWithInit, lastPerDate], ?_⟩
      intro p hp
      simp only [cumWithInit, lastPerDate] at hp
      rcases List.mem_singleton.mp hp with rfl
      simp [sumAmounts]
    | cons u us =>
      have hstep : lastPerDate (cumWithInit init (t :: u :: us)) =
          if t.date = u.date then lastPerDate (cumWithInit (init + t.amount) (u :: us))
          else (t.date, init + t.amount) ::
            lastPerDate (cumWithInit (init + t.amount) (u :: us)) := by
        simp [cumWithInit, lastPerDate]
      obtain ⟨ih1, ih2, ih3⟩ := ih (init + t.amount) hs2
      have hu_le : ∀ d ∈ (u :: us).map Txn.date, u.date ≤ d := pairwise_head_date_le hs2
      by_cases heq : t.date = u.date
      · rw [hstep, if_pos heq]
        refine ⟨ih1, ?_, ?_⟩
        · intro d
          constructor
          · intro hd
            exact List.mem_cons_of_mem _ ((ih2 d).mp hd)
          · intro hd
            rcases List.mem_cons.mp hd with rfl | hd2
            · refine (ih2 t.date).mpr ?_
              rw [heq]
              exact List.mem_map_of_mem Txn.date (List.mem_cons_self u us)
            · exact (ih2 d).mpr hd2
        · intro p hp
          have hval := ih3 p hp
          have hp1 : p.1 ∈ (u :: us).map Txn.date := (ih2 p.1).mp
            (List.mem_map_of_mem Prod.fst hp)
          have htle : t.date ≤ p.1 := by
            have := hu_le p.1 hp1
            omega
          rw [hval]
          conv_rhs => rw [List.filter_cons_of_pos (by simpa using htle), sumAmounts_cons]
          ring
      · have hlt : t.date < u.date := by
          have := hhead u (List.mem_cons_self u us)
          unfold dateLe at this
          omega
        rw [hstep, if_neg heq]
        refine ⟨?_, ?_, ?_⟩
        · rw [List.map_cons]
          refine List.pairwise_cons.mpr ⟨?_, ih1⟩
          intro d hd
          have hd2 : d ∈ (u :: us).map Txn.date := (ih2 d).mp hd
          have := hu_le d hd2
          omega
        · intro d
          constructor
          · intro hd
            rcases List.mem_cons.mp hd with rfl | hd2
            · exact List.mem_map_of_mem Txn.date (List.mem_cons_self t (u :: us))
            · exact List.mem_cons_of_mem _ ((ih2 d).mp hd2)
          · intro hd
            rcases List.mem_cons.mp hd with rfl | hd2
            · exact List.mem_cons_self _ _
            · exact List.mem_cons_of_mem _ ((ih2 d).mpr hd2)
        · intro p hp
          rcases List.mem_cons.mp hp with rfl | hp2
          · have hnone : (u :: us).filter (fun t2 => decide (t2.date ≤ t.date)) = [] := by
              rw [List.filter_eq_nil_iff]
              intro x hx
              have := hu_le x.date (List.mem_map_of_mem Txn.date hx)
              simp only [decide_eq_true_eq]
              omega
            rw [List.filter_cons_of_pos (by simp), hnone, sumAmounts_cons, sumAmounts_nil]
            ring
          · have hval := ih3 p hp2
            have hp1 : p.1 ∈ (u :: us).map Txn.date := (ih2 p.1).mp
              (List.mem_map_of_mem Prod.fst hp2)
            have htle : t.date ≤ p.1 := by
              have := hu_le p.1 hp1
              omega
            rw [hval]
            conv_rhs => rw [List.filter_cons_of_pos (by simpa using htle), sumAmounts_cons]
            ring

/-! ## Theorems -/

/-- C1: for every snapshot (including the empty snapshot) and every
initial balance, `compute_kpis` returns a `current_balance` equal to the
initial balance plus the sum of the `amount` field over all records. -/
theorem compute_kpis_current_balance (df : List Txn) (init : Rat) (today : Int) :
    (compute_kpis df init today).current_balance = init + sumAmounts df := by
  by_cases h : df = []
  · subst h; simp [compute_kpis, sumAmounts]
  · simp [compute_kpis, h]

/-- C2: on a non-empty snapshot, with `cutoff = today - 30`: if some
record has `date ≥ cutoff` then the burn period is exactly the records
with `date ≥ cutoff` and `days = today - max(min date of the subset,
cutoff) + 1`; otherwise the period is the whole snapshot and
`days = max(max date - min date + 1, 30)`; in both cases
`avg_daily_burn = sum(amount in period) / max(days, 1)`. -/
theorem compute_kpis_avg_daily_burn (df : List Txn) (init : Rat) (today : Int)
    (h : df ≠ []) :
    (withDateFrom df (today - 30) ≠ [] →
      (compute_kpis df init today).avg_daily_burn =
        sumAmounts (withDateFrom df (today - 30)) /
          ((max (today - max (minDate (withDateFrom df (today - 30))) (today - 30) + 1) 1 :
            Int) : Rat))
    ∧ (withDateFrom df (today - 30) = [] →
      (compute_kpis df init today).avg_daily_burn =
        sumAmounts df / ((max (max (maxDate df - minDate df + 1) 30) 1 : Int) : Rat)) := by
  have hany : (df.any fun t => decide (today - 30 ≤ t.date)) = true ↔
      withDateFrom df (today - 30) ≠ [] := by
    simp [withDateFrom, List.any_eq_true, List.filter_eq_nil_iff]
  constructor
  · intro hne
    have hex : (df.any fun t => decide (today - 30 ≤ t.date)) = true := hany.mpr hne
    simp only [compute_kpis, if_neg h, hex, eq_self_iff_true, if_true]
  · intro hnil
    have hex : (df.any fun t => decide (today - 30 ≤ t.date)) = false := by
      rw [Bool.eq_false_iff]
      intro hc
      exact (hany.mp hc) hnil
    simp only [compute_kpis, if_neg h, hex]
    simp

/-- Witness for C2, the recent branch: a single outflow of 30 dated
`today` yields an average daily burn of `-30` over a one-day period. -/
theorem compute_kpis_avg_daily_burn_witness :
    (compute_kpis [⟨100, -30, some "x"⟩] 0 100).avg_daily_burn = -30 := by
  have h := (compute_kpis_avg_daily_burn [⟨100, -30, some "x"⟩] 0 100 (by decide)).1
    (by decide)
  rw [h]
  norm_num [withDateFrom, sumAmounts, minDate]

/-- C3: `runway_days` is `some _` exactly when `avg_daily_burn < 0`, and
in that case it equals `⌊current_balance / -avg_daily_burn⌋` when the
current balance is positive and `0` otherwise; when
`avg_daily_burn ≥ 0` (the empty snapshot included) it is `none`. -/
theorem compute_kpis_runway (df : List Txn) (init : Rat) (today : Int) :
    ((compute_kpis df init today).runway_days ≠ none ↔
      (compute_kpis df init today).avg_daily_burn < 0)
    ∧ ((compute_kpis df init today).avg_daily_burn < 0 →
      (compute_kpis df init today).runway_days =
        some (if 0 < (compute_kpis df init today).current_balance then
            ⌊(compute_kpis df init today).current_balance /
              (-(compute_kpis df init today).avg_daily_burn)⌋
          else 0)) := by
  by_cases h : df = []
  · subst h; simp [compute_kpis]
  · have hrw : (compute_kpis df init today).runway_days =
        if (compute_kpis df init today).avg_daily_burn < 0 then
          some (if 0 < (compute_kpis df init today).current_balance then
              ⌊(compute_kpis df init today).current_balance /
                (-(compute_kpis df init today).avg_daily_burn)⌋
            else 0)
        else none := by
      simp [compute_kpis, h]
    rw [hrw]
    constructor
    · by_cases hb : (compute_kpis df init today).avg_daily_burn < 0 <;> simp [hb]
    · intro hb; simp [hb]

/-- Witness for C3: burning 30 a day with a balance of 30 gives a runway
of one day. -/
theorem compute_kpis_runway_witness :
    (compute_kpis [⟨100, -30, some "x"⟩] 60 100).runway_days =
      some (if 0 < (compute_kpis [⟨100, -30, some "x"⟩] 60 100).current_balance then
          ⌊(compute_kpis [⟨100, -30, some "x"⟩] 60 100).current_balance /
            (-(compute_kpis [⟨100, -30, some "x"⟩] 60 100).avg_daily_burn)⌋
        else 0) := by
  apply (compute_kpis_runway [⟨100, -30, some "x"⟩] 60 100).2
  norm_num [compute_kpis, withDateFrom, sumAmounts, minDate]

/-- Counterexample to C4 as stated: `compute_kpis` *does* read "today"
(the Python body calls `date.today()`), so its output is not a function
of the snapshot and the initial balance alone — the same snapshot run at
two different wall-clock dates gives different outputs. -/
theorem compute_kpis_depends_on_today :
    compute_kpis [⟨1000, -10, some "x"⟩] 0 1000 ≠
      compute_kpis [⟨1000, -10, some "x"⟩] 0 2000 := by
  simp [compute_kpis, withDateFrom, sumAmounts, minDate, maxDate]

/-- C4 amended: the analytics components are deterministic in the
snapshot, the initial balance, and the wall-clock date `today` that
`compute_kpis` reads internally; two runs with equal snapshot, initial
balance and (for the KPI engine) equal "today" give identical output. -/
theorem analytics_deterministic (df df2 : List Txn) (init init2 : Rat)
    (today today2 : Int)
    (hdf : df = df2) (hinit : init = init2) (htoday : today = today2) :
    compute_kpis df init today = compute_kpis df2 init2 today2
    ∧ balance_timeseries df init = balance_timeseries df2 init2
    ∧ monthly_flows df = monthly_flows df2
    ∧ category_breakdown df = category_breakdown df2 := by
  subst hdf; subst hinit; subst htoday
  exact ⟨rfl, rfl, rfl, rfl⟩

/-- Witness for the amended C4 at a concrete snapshot. -/
theorem analytics_deterministic_witness :
    compute_kpis [⟨1000, -10, some "x"⟩] 5 1000 =
        compute_kpis [⟨1000, -10, some "x"⟩] 5 1000
    ∧ balance_timeseries [⟨1000, -10, some "x"⟩] 5 =
        balance_timeseries [⟨1000, -10, some "x"⟩] 5
    ∧ monthly_flows [⟨1000, -10, some "x"⟩] = monthly_flows [⟨1000, -10, some "x"⟩]
    ∧ category_breakdown [⟨1000, -10, some "x"⟩] =
        category_breakdown [⟨1000, -10, some "x"⟩] :=
  analytics_deterministic _ _ _ _ _ _ rfl rfl rfl

/-- Counterexample to C9 as stated: a blank category cell — the one
reachable kind of missing category, since an absent category column is
refused at line 212 — arrives as truthy `NaN`, so `or 'Autre'` does not
replace it and the created transaction stores SQL NULL, not `"Other"`
(nor `"Autre"`); and a parsed row standing after a row whose amount
fails to parse becomes no transaction at all, because the loop aborts. -/
theorem importRow_blank_category_not_Other :
    (importRow ⟨0, Cell.nan, Cell.nan, some 1, Cell.nan⟩ 1).category = none
    ∧ (importRow ⟨0, Cell.nan, Cell.nan, some 1, Cell.nan⟩ 1).category ≠ some "Other"
    ∧ csvImport [⟨0, Cell.str "d", Cell.str "c", none, Cell.str "x"⟩,
        ⟨0, Cell.str "d", Cell.str "c", some 2, Cell.str "x"⟩] = [] :=
  ⟨rfl, by decide, rfl⟩

/-- C9 amended: rows are inserted in input order up to the first row
whose amount fails to parse — each earlier row becomes exactly one
created transaction, the failing row and all later rows none.  In a
created transaction the category is replaced by the literal `"Autre"`
only when the cell is a falsy empty string, is kept when it is a
non-empty string, and is stored as SQL NULL when the cell is blank
(truthy `NaN`); the account defaults to the literal `"Cash"` when the
account column is absent (`None` fill) or the cell is the empty string,
is kept when non-empty, and is likewise stored as NULL when blank. -/
theorem csvImport_abort_and_defaults :
    (csvImport [] = [])
    ∧ (∀ (r : CsvRow) (rs : List CsvRow), r.amount = none → csvImport (r :: rs) = [])
    ∧ (∀ (r : CsvRow) (rs : List CsvRow) (a : Rat), r.amount = some a →
        csvImport (r :: rs) = importRow r a :: csvImport rs)
    ∧ (∀ (r : CsvRow) (a : Rat),
        ((r.category = Cell.str "" → (importRow r a).category = some "Autre")
         ∧ (∀ s : String, s ≠ "" → r.category = Cell.str s →
             (importRow r a).category = some s)
         ∧ (r.category = Cell.nan → (importRow r a).category = none))
        ∧ ((r.account = Cell.str "" ∨ r.account = Cell.null →
             (importRow r a).account = some "Cash")
         ∧ (∀ s : String, s ≠ "" → r.account = Cell.str s →
             (importRow r a).account = some s)
         ∧ (r.account = Cell.nan → (importRow r a).account = none))) := by
  refine ⟨rfl, ?_, ?_, ?_⟩
  · intro r rs hr
    simp [csvImport, hr]
  · intro r rs a hr
    simp [csvImport, hr]
  · intro r a
    refine ⟨⟨?_, ?_, ?_⟩, ?_, ?_, ?_⟩
    · intro hr; simp [importRow, pyOr, hr]
    · intro s hs hr; simp [importRow, pyOr, hr, hs]
    · intro hr; simp [importRow, pyOr, hr]
    · rintro (hr | hr) <;> simp [importRow, pyOr, hr]
    · intro s hs hr; simp [importRow, pyOr, hr, hs]
    · intro hr; simp [importRow, pyOr, hr]

/-- Witness for the amended C9 at a concrete row: an empty-string
category defaults to "Autre", an absent account column defaults to
"Cash", and the row becomes one inserted transaction. -/
theorem csvImport_abort_and_defaults_witness :
    csvImport [⟨0, Cell.str "d", Cell.str "", some 3, Cell.null⟩] =
      importRow ⟨0, Cell.str "d", Cell.str "", some 3, Cell.null⟩ 3 :: csvImport []
    ∧ (importRow ⟨0, Cell.str "d", Cell.str "", some 3, Cell.null⟩ 3).category =
        some "Autre"
    ∧ (importRow ⟨0, Cell.str "d", Cell.str "", some 3, Cell.null⟩ 3).account =
        some "Cash" :=
  ⟨csvImport_abort_and_defaults.2.2.1 ⟨0, Cell.str "d", Cell.str "", some 3, Cell.null⟩
      [] 3 rfl,
   (csvImport_abort_and_defaults.2.2.2 ⟨0, Cell.str "d", Cell.str "", some 3, Cell.null⟩
      3).1.1 rfl,
   (csvImport_abort_and_defaults.2.2.2 ⟨0, Cell.str "d", Cell.str "", some 3, Cell.null⟩
      3).2.1 (Or.inr rfl)⟩

/-- C5: `balance_timeseries` has one `(date, balance)` pair per distinct
date of the snapshot, strictly ascending by date; the balance paired
with a date `d` is the initial balance plus the sum of `amount` over all
records with date `≤ d`; the empty snapshot yields the empty sequence. -/
theorem balance_timeseries_spec (df : List Txn) (init : Rat) :
    (List.Pairwise (· < ·) ((balance_timeseries df init).map Prod.fst))
    ∧ (∀ d : Int,
        d ∈ (balance_timeseries df init).map Prod.fst ↔ d ∈ df.map Txn.date)
    ∧ (∀ p ∈ balance_timeseries df init,
        p.2 = init + sumAmounts (df.filter fun t => decide (t.date ≤ p.1)))
    ∧ (df = [] → balance_timeseries df init = []) := by
  by_cases h : df = []
  · subst h
    refine ⟨by simp [balance_timeseries], by simp [balance_timeseries], ?_, fun _ => rfl⟩
    intro p hp
    simp [balance_timeseries] at hp
  · have hperm : (sortByDate df).Perm df := List.perm_insertionSort dateLe df
    have hsorted : List.Pairwise dateLe (sortByDate df) :=
      List.sorted_insertionSort dateLe df
    obtain ⟨h1, h2, h3⟩ := lastPerDate_cum_spec (sortByDate df) init hsorted
    have hbt : balance_timeseries df init =
        lastPerDate (cumWithInit init (sortByDate df)) := if_neg h
    rw [hbt]
    refine ⟨h1, ?_, ?_, fun hc => absurd hc h⟩
    · intro d
      rw [h2 d]
      exact (List.Perm.map Txn.date hperm).mem_iff
    · intro p hp
      rw [h3 p hp]
      congr 1
      exact sumAmounts_perm (List.Perm.filter _ hperm)

/-- Witness for C5 at a one-record snapshot: the single retained pair
carries the cumulative balance of all records dated up to its date. -/
theorem balance_timeseries_spec_witness :
    ((5 : Int), (1 : Rat) + 7).2 =
      1 + sumAmounts (([⟨5, 7, some "a"⟩] : List Txn).filter fun t =>
        decide (t.date ≤ ((5 : Int), (1 : Rat) + 7).1)) :=
  (balance_timeseries_spec [⟨5, 7, some "a"⟩] 1).2.2.1 ((5 : Int), (1 : Rat) + 7)
    (List.mem_singleton.mpr rfl)

/-- A non-strict lexicographic bound together with inequality is strict. -/
theorem mLt_of_mLe_of_ne {a b : Int × Int} (hle : mLe a b) (hne : a ≠ b) : mLt a b :=
  lt_of_le_of_ne hle fun hc => hne (toLex.injective hc)

/-- A `(year, month)` list that is sorted and duplicate-free is strictly
sorted. -/
theorem pairwise_mLt_of_mLe_nodup {l : List (Int × Int)}
    (hle : List.Pairwise mLe l) (hnd : l.Nodup) : List.Pairwise mLt l := by
  induction l with
  | nil => exact List.Pairwise.nil
  | cons a l ih =>
    rcases List.pairwise_cons.mp hle with ⟨ha, hle2⟩
    rcases List.nodup_cons.mp hnd with ⟨hna, hnd2⟩
    refine List.pairwise_cons.mpr ⟨?_, ih hle2 hnd2⟩
    intro b hb
    exact mLt_of_mLe_of_ne (ha b hb) fun hc => hna (hc ▸ hb)

/-- The month index of `monthly_flows` is duplicate-free. -/
theorem monthsOf_nodup (df : List Txn) : (monthsOf df).Nodup := by
  unfold monthsOf
  generalize (df.map fun t => monthKey t.date) = Y
  exact ((List.perm_insertionSort mLe Y.dedup).nodup_iff).mpr (List.nodup_dedup Y)

/-- The month index of `monthly_flows` is strictly ascending. -/
theorem monthsOf_sorted (df : List Txn) : List.Pairwise mLt (monthsOf df) := by
  refine pairwise_mLt_of_mLe_nodup ?_ (monthsOf_nodup df)
  unfold monthsOf
  generalize (df.map fun t => monthKey t.date) = Y
  exact List.sorted_insertionSort mLe Y.dedup

/-- The month index of `monthly_flows` holds exactly the months present. -/
theorem monthsOf_mem (df : List Txn) (m : Int × Int) :
    m ∈ monthsOf df ↔ m ∈ df.map fun t => monthKey t.date := by
  unfold monthsOf
  generalize (df.map fun t => monthKey t.date) = Y
  rw [(List.perm_insertionSort mLe Y.dedup).mem_iff, List.mem_dedup]

/-- C6: `monthly_flows` has one `(month, inflow, outflow, net)` entry
per calendar month present (`monthKey` = year and month of the date),
sorted strictly ascending by month; `inflow` sums the strictly positive
amounts of the month, `outflow` the strictly negative ones, `net` all of
them; the empty snapshot yields the empty sequence. -/
theorem monthly_flows_spec (df : List Txn) :
    (List.Pairwise mLt ((monthly_flows df).map Prod.fst))
    ∧ (∀ m : Int × Int,
        m ∈ (monthly_flows df).map Prod.fst ↔ m ∈ df.map fun t => monthKey t.date)
    ∧ (∀ e ∈ monthly_flows df,
        e.2.1 = sumAmounts (df.filter fun t =>
          decide (monthKey t.date = e.1) && decide (0 < t.amount))
        ∧ e.2.2.1 = sumAmounts (df.filter fun t =>
          decide (monthKey t.date = e.1) && decide (t.amount < 0))
        ∧ e.2.2.2 = sumAmounts (df.filter fun t => decide (monthKey t.date = e.1)))
    ∧ (df = [] → monthly_flows df = []) := by
  by_cases h : df = []
  · subst h
    refine ⟨by simp [monthly_flows], by simp [monthly_flows], ?_, fun _ => rfl⟩
    intro e he
    simp [monthly_flows] at he
  · have hmf : monthly_flows df = (monthsOf df).map (fun m =>
        (m,
         sumAmounts (df.filter fun t =>
           decide (monthKey t.date = m) && decide (0 < t.amount)),
         sumAmounts (df.filter fun t =>
           decide (monthKey t.date = m) && decide (t.amount < 0)),
         sumAmounts (df.filter fun t => decide (monthKey t.date = m)))) := if_neg h
    have hfst : (monthly_flows df).map Prod.fst = monthsOf df := by
      rw [hmf, List.map_map]
      exact List.map_id (monthsOf df)
    refine ⟨by rw [hfst]; exact monthsOf_sorted df, ?_, ?_, fun hc => absurd hc h⟩
    · intro m
      rw [hfst]
      exact monthsOf_mem df m
    · intro e he
      rw [hmf] at he
      rcases List.mem_map.mp he with ⟨m, _, rfl⟩
      exact ⟨rfl, rfl, rfl⟩

/-- Witness for C6 at `sampleMF`: its single row, keyed by month
(2024, 1), carries the month's net amount. -/
theorem monthly_flows_spec_witness :
    sampleMFe.2.2.2 =
      sumAmounts (sampleMF.filter fun t => decide (monthKey t.date = sampleMFe.1)) :=
  ((monthly_flows_spec sampleMF).2.2.1 sampleMFe (List.mem_singleton.mpr rfl)).2.2

/-- Counterexample to C7 as stated: a record whose category is absent
(SQL `NULL`, a missing value for pandas) gets *no* group at all —
`groupby('category')` drops the row — so the one-record snapshot below
produces an empty breakdown instead of an uncategorized entry. -/
theorem category_breakdown_drops_missing :
    category_breakdown [⟨1, 5, none⟩] = [] ∧ ([⟨1, 5, none⟩] : List Txn).length = 1 :=
  ⟨rfl, rfl⟩

/-- C7 amended: `category_breakdown` has one `(category, net_amount)`
entry per distinct *present* category — the empty string is an ordinary
category forming its own group, while records whose category is absent
are excluded — with `net_amount` the sum of that category's amounts,
sorted ascending by `net_amount`; the empty snapshot yields the empty
sequence. -/
theorem category_breakdown_spec (df : List Txn) :
    (List.Pairwise amtLe (category_breakdown df))
    ∧ (((category_breakdown df).map Prod.fst).Nodup)
    ∧ (∀ c : String,
        c ∈ (category_breakdown df).map Prod.fst ↔ some c ∈ df.map Txn.category)
    ∧ (∀ p ∈ category_breakdown df,
        p.2 = sumAmounts (df.filter fun t => decide (t.category = some p.1)))
    ∧ (df = [] → category_breakdown df = []) := by
  by_cases h : df = []
  · subst h
    refine ⟨by simp [category_breakdown], by simp [category_breakdown],
      by simp [category_breakdown], ?_, fun _ => rfl⟩
    intro p hp
    simp [category_breakdown] at hp
  · have hcb : category_breakdown df = List.insertionSort amtLe
        ((df.filterMap Txn.category).dedup.map fun c =>
          (c, sumAmounts (df.filter fun t => decide (t.category = some c)))) := if_neg h
    have hperm : (List.insertionSort amtLe
        ((df.filterMap Txn.category).dedup.map fun c =>
          (c, sumAmounts (df.filter fun t => decide (t.category = some c))))).Perm
        ((df.filterMap Txn.category).dedup.map fun c =>
          (c, sumAmounts (df.filter fun t => decide (t.category = some c)))) :=
      List.perm_insertionSort amtLe _
    have hfst : ((category_breakdown df).map Prod.fst).Perm
        (df.filterMap Txn.category).dedup := by
      rw [hcb]
      have h2 := List.Perm.map Prod.fst hperm
      rw [List.map_map] at h2
      have h3 : ((df.filterMap Txn.category).dedup.map
          (Prod.fst ∘ fun c =>
            (c, sumAmounts (df.filter fun t => decide (t.category = some c))))) =
          (df.filterMap Txn.category).dedup := List.map_id _
      rw [h3] at h2
      exact h2
    refine ⟨?_, ?_, ?_, ?_, fun hc => absurd hc h⟩
    · rw [hcb]
      exact List.sorted_insertionSort amtLe _
    · exact hfst.nodup_iff.mpr (List.nodup_dedup _)
    · intro c
      rw [hfst.mem_iff, List.mem_dedup, List.mem_filterMap]
      constructor
      · rintro ⟨t, ht, hc⟩
        exact List.mem_map.mpr ⟨t, ht, hc⟩
      · intro hc
        rcases List.mem_map.mp hc with ⟨t, ht, hc2⟩
        exact ⟨t, ht, hc2⟩
    · intro p hp
      rw [hcb] at hp
      have hp2 := hperm.mem_iff.mp hp
      rcases List.mem_map.mp hp2 with ⟨c, _, rfl⟩
      rfl

/-- Witness for the amended C7 at `sampleCB`: its single entry carries
the net amount of category "b". -/
theorem category_breakdown_spec_witness :
    sampleCBp.2 =
      sumAmounts (sampleCB.filter fun t => decide (t.category = some sampleCBp.1)) :=
  (category_breakdown_spec sampleCB).2.2.2.1 sampleCBp (List.mem_singleton.mpr rfl)

/-- Summing `filter (f · = k)` over a duplicate-free key list that
covers every key occurring in `df` recovers the total sum. -/
theorem sum_over_keys {κ : Type} [DecidableEq κ] (f : Txn → κ) (ks : List κ) :
    ks.Nodup → ∀ df : List Txn, (∀ t ∈ df, f t ∈ ks) →
      (ks.map fun k => sumAmounts (df.filter fun t => decide (f t = k))).sum
        = sumAmounts df := by
  induction ks with
  | nil =>
    intro _ df hall
    have hdf : df = [] := by
      rcases df with _ | ⟨t, ts⟩
      · rfl
      · exact absurd (hall t (List.mem_cons_self t ts)) (List.not_mem_nil _)
    subst hdf
    rfl
  | cons k ks ih =>
    intro hnd df hall
    have hk : k ∉ ks := (List.nodup_cons.mp hnd).1
    have hnd2 : ks.Nodup := (List.nodup_cons.mp hnd).2
    have hall2 : ∀ t ∈ df.filter fun t => !(decide (f t = k)), f t ∈ ks := by
      intro t ht
      rcases List.mem_filter.mp ht with ⟨ht1, ht2⟩
      rcases List.mem_cons.mp (hall t ht1) with h1 | h2
      · exact absurd (decide_eq_true h1) (by simpa using ht2)
      · exact h2
    have hcongr : ∀ k2 ∈ ks,
        sumAmounts (df.filter fun t => decide (f t = k2)) =
        sumAmounts ((df.filter fun t => !(decide (f t = k))).filter
          fun t => decide (f t = k2)) := by
      intro k2 hk2
      rw [List.filter_filter]
      congr 1
      apply List.filter_congr
      intro t _
      cases hfk : decide (f t = k2)
      · simp
      · have h1 : f t = k2 := of_decide_eq_true hfk
        have h2 : decide (f t = k) = false := by
          apply decide_eq_false
          intro hc
          have hkk : k = k2 := by rw [← hc, h1]
          exact hk (by rw [hkk]; exact hk2)
        simp [h2]
    rw [List.map_cons, List.sum_cons, List.map_congr_left hcongr,
      ih hnd2 _ hall2]
    exact sumAmounts_filter_add_not (fun t => decide (f t = k)) df

/-- Counterexample to C8 as stated: on a snapshot whose single record
has an absent category, the category buckets sum to 0 while the records
sum to 7 — `groupby('category')` drops missing keys. -/
theorem conservation_fails_on_missing_category :
    ((category_breakdown [⟨1, 7, none⟩]).map Prod.snd).sum ≠
      sumAmounts [⟨1, 7, none⟩] := by
  rw [show category_breakdown [⟨1, 7, none⟩] = [] from rfl]
  norm_num [sumAmounts]

/-- C8 amended: the monthly-bucket nets always sum to the snapshot's
total amount, and the category-bucket nets do as well whenever every
record's category is present (non-null). -/
theorem aggregation_conservation (df : List Txn) :
    ((monthly_flows df).map fun e => e.2.2.2).sum = sumAmounts df
    ∧ ((∀ t ∈ df, t.category ≠ none) →
      ((category_breakdown df).map Prod.snd).sum = sumAmounts df) := by
  constructor
  · by_cases h : df = []
    · subst h
      rfl
    · have hmf : monthly_flows df = (monthsOf df).map (fun m =>
          (m,
           sumAmounts (df.filter fun t =>
             decide (monthKey t.date = m) && decide (0 < t.amount)),
           sumAmounts (df.filter fun t =>
             decide (monthKey t.date = m) && decide (t.amount < 0)),
           sumAmounts (df.filter fun t => decide (monthKey t.date = m)))) := if_neg h
      rw [hmf, List.map_map]
      exact sum_over_keys (fun t => monthKey t.date) (monthsOf df) (monthsOf_nodup df)
        df (fun t ht => (monthsOf_mem df _).mpr (List.mem_map_of_mem _ ht))
  · intro hc
    by_cases h : df = []
    · subst h
      rfl
    · have hcb : category_breakdown df = List.insertionSort amtLe
          ((df.filterMap Txn.category).dedup.map fun c =>
            (c, sumAmounts (df.filter fun t => decide (t.category = some c)))) :=
        if_neg h
      have hsum : ((category_breakdown df).map Prod.snd).sum =
          (((df.filterMap Txn.category).dedup.map fun c =>
            (c, sumAmounts (df.filter fun t =>
              decide (t.category = some c)))).map Prod.snd).sum := by
        rw [hcb]
        exact (List.Perm.map Prod.snd (List.perm_insertionSort amtLe _)).sum_eq
      rw [hsum, List.map_map]
      have hnodup : ((df.filterMap Txn.category).dedup.map some).Nodup :=
        (List.nodup_dedup _).map (Option.some_injective String)
      have hall : ∀ t ∈ df, t.category ∈ (df.filterMap Txn.category).dedup.map some := by
        intro t ht
        rcases hopt : t.category with _ | c
        · exact absurd hopt (hc t ht)
        · refine List.mem_map.mpr ⟨c, ?_, rfl⟩
          exact List.mem_dedup.mpr (List.mem_filterMap.mpr ⟨t, ht, hopt⟩)
      have hkey := sum_over_keys Txn.category ((df.filterMap Txn.category).dedup.map some)
        hnodup df hall
      rw [List.map_map] at hkey
      exact hkey

/-- Witness for the amended C8 at a snapshot whose record has a present
category. -/
theorem aggregation_conservation_witness :
    ((category_breakdown [⟨1, 4, some "a"⟩]).map Prod.snd).sum =
      sumAmounts [⟨1, 4, some "a"⟩] :=
  (aggregation_conservation [⟨1, 4, some "a"⟩]).2 (by decide)
